import Mathlib

/-!
# Balance processor: shallow embedding and verification

This file embeds the core of the `balance-processor` Go repository in Lean 4
and proves (or refutes) the frozen specification claims about it.

Embedding conventions:
* Go strings are modelled as `List Char` internally (ASCII inputs; the
  lexicographic order and case folding on ASCII coincide with Go's byte-wise
  operations), with `String` wrappers at the API boundary.
* Go `int64` arithmetic that can wrap is modelled on `Int` with an explicit
  two's-complement reduction `wrap64`; `uint64` counters reduce modulo `2^64`.
* Fallible Go functions returning `(T, error)` are modelled as `Except`/`Option`.
* The database is modelled as an explicit state (association lists of rows);
  a unit-of-work transaction is a snapshot that is either committed (published)
  or rolled back (discarded), mirroring the `Begin`/`Commit`/`Rollback` calls.
* The process-wide clock (`TimeProvider.Now`) is passed as an explicit `now`.
-/

instance {ε α : Type} [DecidableEq ε] [DecidableEq α] : DecidableEq (Except ε α) :=
  fun a b =>
    match a, b with
    | .ok x, .ok y => if h : x = y then .isTrue (by rw [h]) else .isFalse (by simp [h])
    | .error x, .error y => if h : x = y then .isTrue (by rw [h]) else .isFalse (by simp [h])
    | .ok _, .error _ => .isFalse (by simp)
    | .error _, .ok _ => .isFalse (by simp)

namespace BalanceProcessor

/-! ## Go string primitives

`goIsSpace` models `unicode.IsSpace` on the Latin-1 range (the full Unicode
table is irrelevant for the decimal-amount inputs the claims are about). -/

def goIsSpace (c : Char) : Bool :=
  c = ' ' || c = '\t' || c = '\n' || c = (Char.ofNat 11) || c = (Char.ofNat 12) ||
  c = '\r' || c = (Char.ofNat 0x85) || c = (Char.ofNat 0xA0)

/-- Model of Go `strings.TrimSpace` (drop spaces from both ends). -/
def goTrimSpace (l : List Char) : List Char :=
  ((l.dropWhile goIsSpace).reverse.dropWhile goIsSpace).reverse

/-- Model of Go `strings.Split(s, sep)` for a one-character separator. -/
def splitOnChar (sep : Char) : List Char → List (List Char)
  | [] => [[]]
  | c :: rest =>
    match splitOnChar sep rest with
    | [] => [[c]]
    | h :: t => if c = sep then [] :: h :: t else (c :: h) :: t

/-- Lexicographic strict order on character lists; on ASCII data this agrees
with Go's byte-wise string `<`. -/
def listLt : List Char → List Char → Bool
  | [], [] => false
  | [], _ :: _ => true
  | _ :: _, [] => false
  | a :: as, b :: bs => if a < b then true else if b < a then false else listLt as bs

/-- Go string comparison `a > b`. -/
def goStrGT (a b : List Char) : Bool := listLt b a

/-- ASCII case folding of a character, modelling `strings.ToLower` on ASCII. -/
def asciiToLower (c : Char) : Char :=
  if 'A' ≤ c ∧ c ≤ 'Z' then Char.ofNat (c.toNat + 32) else c

def goToLowerL (l : List Char) : List Char := l.map asciiToLower

/-- `needle` occurs as a contiguous sublist of `hay` (Go `strings.Contains`). -/
def goContainsAux (hay needle : List Char) : Bool :=
  needle.isPrefixOf hay ||
    match hay with
    | [] => false
    | _ :: t => goContainsAux t needle

def goContains (hay needle : String) : Bool := goContainsAux hay.toList needle.toList

/-! ## Decimal digits -/

/-- Go's per-byte digit test `'0' <= c && c <= '9'` in `strconv`. -/
def goIsDigit (c : Char) : Bool := 48 ≤ c.toNat && c.toNat ≤ 57

def digitVal (c : Char) : Nat := c.toNat - 48

/-- Value of a big-endian digit string, as accumulated by Go's `ParseUint`. -/
def natOfDigits (l : List Char) : Nat := l.foldl (fun a c => 10 * a + digitVal c) 0

/-- Big-endian decimal digits of `n`, fuelled for structural recursion. -/
def natDigitsF : Nat → Nat → List Char
  | 0, _ => []
  | fuel + 1, n =>
    if n < 10 then [Nat.digitChar n]
    else natDigitsF fuel (n / 10) ++ [Nat.digitChar (n % 10)]

/-- Big-endian decimal representation of `n` (what `fmt.Sprintf("%d", n)`
prints for a non-negative value). -/
def natDigits (n : Nat) : List Char := natDigitsF (n + 1) n

/-- Two's-complement reduction of an integer into the signed 64-bit range;
models Go `int64` overflow behaviour. -/
def wrap64 (z : Int) : Int := (z + 2 ^ 63) % 2 ^ 64 - 2 ^ 63

/-- What Go `fmt.Sprintf("%d", z)` prints for an `int64` value. -/
def goIntToDecimalChars (z : Int) : List Char :=
  if z < 0 then '-' :: natDigits z.natAbs else natDigits z.natAbs

/-! ## Go `strconv.ParseInt(s, 10, 64)` -/

inductive ParseIntResult where
  | ok (v : Int)
  | outOfRange
  | malformed
deriving DecidableEq, Repr

/-- Model of `strconv.ParseInt(s, 10, 64)`: optional sign, then a non-empty
run of decimal digits, range-checked against the signed 64-bit bounds.
(Go reports a range error as soon as the running value overflows, even when a
later character is invalid; on every string that reaches `ParseInt` inside
`ValidateAndConvertAmount` the two behaviours agree, because the 19-character
length and lexicographic pre-checks exclude overflowing all-digit prefixes.) -/
def goParseInt64 (s : List Char) : ParseIntResult :=
  match s with
  | [] => .malformed
  | c :: rest =>
    let neg := c = '-'
    let digits := if c = '+' ∨ c = '-' then rest else c :: rest
    if digits.isEmpty then .malformed
    else if digits.all goIsDigit then
      let n := natOfDigits digits
      if neg then
        if n ≤ 2 ^ 63 then .ok (-(n : Int)) else .outOfRange
      else
        if n ≤ 2 ^ 63 - 1 then .ok (n : Int) else .outOfRange
    else .malformed

/-! ## Domain errors (`internal/domain/error`) -/

inductive DomainErr where
  | invalidAmount
  | negativeAmount
  | amountOverflow
  | invalidUserID
  | invalidTransactionID
  | invalidState
  | invalidSourceType
  | userNotFound
  | userLocked
  | insufficientBalance
  /-- `InsufficientBalanceError` struct with user id, requested amount and
  current balance (`NewInsufficientBalanceError`). -/
  | insufficientBalanceDetailed (userID : Nat) (amount : String) (currBalance : String)
  /-- `DuplicateTransactionError` struct (`NewDuplicateTransactionError`). -/
  | duplicateTransaction (transactionID : String) (userID : Nat) (sourceType : String)
deriving DecidableEq, Repr

/-- `errors.IsInsufficientBalanceError`: true for the sentinel and for the
detailed struct (whose `Is` method matches the sentinel). -/
def IsInsufficientBalanceError : DomainErr → Bool
  | .insufficientBalance => true
  | .insufficientBalanceDetailed _ _ _ => true
  | _ => false

/-- `Error()` messages, for the error values whose message the processor
stores or returns. -/
def errMessage : DomainErr → String
  | .insufficientBalanceDetailed uid amount bal =>
      "insufficient balance for user " ++ String.mk (natDigits uid) ++
        ": required " ++ amount ++ ", available " ++ bal
  | .duplicateTransaction tid uid src =>
      "duplicate transaction detected: transactionID=" ++ tid ++ " for user " ++
        String.mk (natDigits uid) ++ " from source " ++ src
  | .insufficientBalance => "insufficient balance"
  | .invalidAmount => "invalid amount format"
  | .negativeAmount => "amount cannot be negative"
  | .amountOverflow => "amount is too large and would cause overflow"
  | .invalidUserID => "invalid user ID"
  | .invalidTransactionID => "invalid transaction ID"
  | .invalidState => "invalid transaction state"
  | .invalidSourceType => "invalid source type"
  | .userNotFound => "user not found"
  | .userLocked => "user is locked by another operation"

/-! ## Money codec (`internal/domain/entity/money_utils.go`) -/

def maxInt64Chars : List Char := "9223372036854775807".toList

/-- The `integerValue` concatenation built by the `len(parts)` switch in
`ValidateAndConvertAmount` (lines 70–91): whole part followed by the
fractional part padded to two digits; `none` when there are more than two
fractional digits (or an impossible parts shape). -/
def integerValueOf : List (List Char) → Option (List Char)
  | [w] => some (w ++ ['0', '0'])
  | [w, f] =>
    match f.length with
    | 0 => some (w ++ ['0', '0'])
    | 1 => some (w ++ f ++ ['0'])
    | 2 => some (w ++ f)
    | _ => none
  | _ => none

/-- `entity.ValidateAndConvertAmount` on a character list: trim, reject empty
and `-`-prefixed input, split on `.`, build `integerValue`, run the two
overflow pre-checks, then `strconv.ParseInt`. -/
def ValidateAndConvertAmountL (l : List Char) : Except DomainErr Int :=
  let amount := goTrimSpace l
  if amount.isEmpty then .error .invalidAmount
  else if amount.head? = some '-' then .error .negativeAmount
  else
    let parts := splitOnChar '.' amount
    if 2 < parts.length then .error .invalidAmount
    else
      match integerValueOf parts with
      | none => .error .invalidAmount
      | some integerValue =>
        if 19 < integerValue.length then .error .amountOverflow
        else if integerValue.length = 19 ∧ goStrGT integerValue maxInt64Chars = true then
          .error .amountOverflow
        else
          match goParseInt64 integerValue with
          | .ok v => .ok v
          | .outOfRange => .error .amountOverflow
          | .malformed => .error .invalidAmount

def ValidateAndConvertAmount (s : String) : Except DomainErr Int :=
  ValidateAndConvertAmountL s.toList

/-- Pad on the left with `'0'` up to length `k` (the `for len < 3` loop). -/
def leftPadZeros (k : Nat) (l : List Char) : List Char :=
  List.replicate (k - l.length) '0' ++ l

/-- `entity.AmountInCentsToString` on character lists. The negation of the
input is reduced by `wrap64` exactly as Go's `int64` negation is. -/
def AmountInCentsToStringL (amountInCents : Int) : List Char :=
  let isNegative := amountInCents < 0
  let a := if isNegative then wrap64 (-amountInCents) else amountInCents
  let amountStr := goIntToDecimalChars a
  let padded := leftPadZeros 3 amountStr
  let decimalPos := padded.length - 2
  let wholePart := padded.take decimalPos
  let decimalPart := padded.drop decimalPos
  let wholePart2 := if wholePart.isEmpty then ['0'] else wholePart
  if isNegative then '-' :: (wholePart2 ++ '.' :: decimalPart)
  else wholePart2 ++ '.' :: decimalPart

def AmountInCentsToString (amountInCents : Int) : String :=
  String.mk (AmountInCentsToStringL amountInCents)

/-- `entity.EnsureTwoDecimalPlaces` on character lists. Note that with more
than one `.` the Go code keeps only the first two split parts. -/
def EnsureTwoDecimalPlacesL (l : List Char) : Except DomainErr (List Char) :=
  if (goTrimSpace l).isEmpty then .ok ('0' :: '.' :: ['0', '0'])
  else
    match splitOnChar '.' l with
    | [] => .error .invalidAmount
    | [w] => .ok (w ++ '.' :: ['0', '0'])
    | w :: f :: _ =>
      match f.length with
      | 0 => .ok (w ++ '.' :: ['0', '0'])
      | 1 => .ok (w ++ '.' :: f ++ ['0'])
      | 2 => .ok (w ++ '.' :: f)
      | _ => .error .invalidAmount

def EnsureTwoDecimalPlaces (s : String) : Except DomainErr String :=
  (EnsureTwoDecimalPlacesL s.toList).map String.mk

/-! ## User aggregate (`internal/domain/entity/user.go`) -/

structure User where
  ID : Nat
  /-- Balance in cents, a Go `int64` (kept in `[-2^63, 2^63)` by `wrap64`). -/
  balance : Int
  CreatedAt : Nat
  UpdatedAt : Nat
  /-- Go `uint64` counter. -/
  TransactionCount : Nat
deriving DecidableEq, Repr

/-- `(*User).GetBalance`: format the cents and normalise to two decimals
(the Go code discards `EnsureTwoDecimalPlaces`'s error, leaving `""`). -/
def User.GetBalance (u : User) : String :=
  match EnsureTwoDecimalPlaces (AmountInCentsToString u.balance) with
  | .ok s => s
  | .error _ => ""

/-- `(*User).ApplyWinTransaction`: add to balance (int64 wrap), touch
updated-at, increment the transaction count (uint64 wrap). -/
def ApplyWinTransaction (u : User) (amountInCents : Int) (now : Nat) : User :=
  { u with
    balance := wrap64 (u.balance + amountInCents)
    UpdatedAt := now
    TransactionCount := (u.TransactionCount + 1) % 2 ^ 64 }

/-- `(*User).ApplyLoseTransaction`: fail with `ErrInsufficientBalance` when
`balance < amountInCents`, leaving the user untouched; otherwise subtract,
touch updated-at and increment the count. -/
def ApplyLoseTransaction (u : User) (amountInCents : Int) (now : Nat) :
    Except DomainErr User :=
  if u.balance < amountInCents then .error .insufficientBalance
  else .ok
    { u with
      balance := wrap64 (u.balance - amountInCents)
      UpdatedAt := now
      TransactionCount := (u.TransactionCount + 1) % 2 ^ 64 }

/-! ## Transaction record (`internal/domain/entity/transaction.go`) -/

inductive TransactionState where
  | win
  | lose
deriving DecidableEq, Repr

inductive SourceType where
  | game
  | server
  | payment
deriving DecidableEq, Repr

inductive TransactionStatus where
  | pending
  | completed
  | failed
deriving DecidableEq, Repr

/-- `EnumRegistry.Parse` for transaction states: lower-case the trimmed input
and compare case-insensitively with the registered values (ASCII model of
`strings.EqualFold`). -/
def ParseTransactionState (s : String) : Except DomainErr TransactionState :=
  let normalized := goToLowerL (goTrimSpace s.toList)
  if goToLowerL "win".toList = goToLowerL normalized then .ok .win
  else if goToLowerL "lose".toList = goToLowerL normalized then .ok .lose
  else .error .invalidState

/-- `EnumRegistry.Parse` for source types. -/
def ParseSourceType (s : String) : Except DomainErr SourceType :=
  let normalized := goToLowerL (goTrimSpace s.toList)
  if goToLowerL "game".toList = goToLowerL normalized then .ok .game
  else if goToLowerL "server".toList = goToLowerL normalized then .ok .server
  else if goToLowerL "payment".toList = goToLowerL normalized then .ok .payment
  else .error .invalidSourceType

structure Transaction where
  UserID : Nat
  TransactionID : String
  Source : SourceType
  State : TransactionState
  AmountInCents : Int
  CreatedAt : Nat
  ProcessedAt : Option Nat
  ResultBalanceInCents : Int
  Status : TransactionStatus
  ErrorMessage : String
deriving DecidableEq, Repr

/-- `entity.NewTransaction`: validate the external id, parse source, state and
amount, and build a pending record. -/
def NewTransaction (userID : Nat) (transactionID : String)
    (sourceType state amount : String) (now : Nat) : Except DomainErr Transaction :=
  if transactionID = "" then .error .invalidTransactionID
  else
    match ParseSourceType sourceType with
    | .error e => .error e
    | .ok parsedSourceType =>
      match ParseTransactionState state with
      | .error e => .error e
      | .ok parsedState =>
        match ValidateAndConvertAmount amount with
        | .error e => .error e
        | .ok amountInCents => .ok
          { UserID := userID
            TransactionID := transactionID
            Source := parsedSourceType
            State := parsedState
            AmountInCents := amountInCents
            CreatedAt := now
            ProcessedAt := none
            ResultBalanceInCents := 0
            Status := .pending
            ErrorMessage := "" }

/-- `(*Transaction).MarkAsProcessed`: set processed-at, status `completed` and
the result balance — unconditionally, whatever the current status. -/
def MarkAsProcessed (t : Transaction) (now : Nat) (resultBalanceInCents : Int) :
    Transaction :=
  { t with
    ProcessedAt := some now
    Status := .completed
    ResultBalanceInCents := resultBalanceInCents }

/-- `(*Transaction).MarkAsFailed`: set processed-at, status `failed` and the
error message — unconditionally, whatever the current status. -/
def MarkAsFailed (t : Transaction) (now : Nat) (errorMessage : String) :
    Transaction :=
  { t with
    ProcessedAt := some now
    Status := .failed
    ErrorMessage := errorMessage }

/-! ## Distributed locker
(`internal/infrastructure/adapter/repository/user_lock_repository.go`) -/

structure UserLock where
  lockedAt : Nat
  expiresAt : Nat
  createdAt : Nat
  updatedAt : Nat
deriving DecidableEq, Repr

/-- The `user_locks` table: at most one row per user id (primary key). -/
abbrev LockTable : Type := List (Nat × UserLock)

def lockLookup (locks : LockTable) (userID : Nat) : Option UserLock :=
  (List.find? (fun p => p.1 = userID) locks).map Prod.snd

def lockUpdateRow (locks : LockTable) (userID : Nat) (row : UserLock) : LockTable :=
  List.map (fun p => if p.1 = userID then (userID, row) else p) locks

/-- `(*UserLockRepository).AcquireLock`. The single SQL statement
`INSERT INTO user_locks ... ON CONFLICT (user_id) DO UPDATE SET ...
WHERE user_locks.expires_at <= ?` is modelled by its PostgreSQL semantics:
no conflicting row — insert; conflicting row with `expires_at ≤ now` —
update (takeover); conflicting live row — the `DO UPDATE ... WHERE` guard is
false, so the statement completes *without error* affecting zero rows.
The Go code inspects only `err` (never `RowsAffected`), so it returns `nil`
in all three cases; the `ErrUserLocked` branch fires only on a duplicate-key
error, which `ON CONFLICT` prevents. -/
def AcquireLock (locks : LockTable) (userID : Nat) (now duration : Nat) :
    LockTable × Option DomainErr :=
  match lockLookup locks userID with
  | none =>
    (locks ++ [(userID,
      { lockedAt := now, expiresAt := now + duration,
        createdAt := now, updatedAt := now })], none)
  | some row =>
    if row.expiresAt ≤ now then
      (lockUpdateRow locks userID
        { row with lockedAt := now, expiresAt := now + duration, updatedAt := now },
       none)
    else
      (locks, none)

/-- `(*UserLockRepository).ReleaseLock`: delete the row keyed by the user id
(a missing row is not an error). -/
def ReleaseLock (locks : LockTable) (userID : Nat) : LockTable :=
  List.filter (fun p => ¬ p.1 = userID) locks

/-! ## Retry policy (`internal/infrastructure/adapter/database/retry.go`) -/

/-- `database.isTransientError` on the error's message: lower-case it and
look for any of the transient substrings — the list *includes*
`"duplicate key"` ("For handling duplicate transactions"). -/
def isTransientError (msg : String) : Bool :=
  let errMsg := String.mk (goToLowerL msg.toList)
  goContains errMsg "deadlock" ||
  goContains errMsg "serialization" ||
  goContains errMsg "connection reset" ||
  goContains errMsg "connection refused" ||
  goContains errMsg "timeout" ||
  goContains errMsg "too many connections" ||
  goContains errMsg "server closed" ||
  goContains errMsg "broken pipe" ||
  goContains errMsg "write: broken pipe" ||
  goContains errMsg "lock timeout" ||
  goContains errMsg "duplicate key" ||
  goContains errMsg "eof"

/-- The attempt loop of `database.RetryOnTransientError`. `results n` is the
outcome of the `n`-th call of `operation` (`none` = success, `some msg` = an
error with that message); backoff sleeps and context cancellation are timing
concerns outside this model. Returns the final error and the number of
attempts actually executed. -/
def retryLoop (results : Nat → Option String) :
    (attempt : Nat) → (remaining : Nat) → Option String × Nat
  | attempt, 0 => (none, attempt)
  | attempt, remaining + 1 =>
    match results attempt with
    | none => (none, attempt + 1)
    | some m =>
      if isTransientError m then
        if remaining = 0 then (some m, attempt + 1)
        else retryLoop results (attempt + 1) remaining
      else (some m, attempt + 1)

def RetryOnTransientError (maxRetries : Nat) (results : Nat → Option String) :
    Option String × Nat :=
  retryLoop results 0 maxRetries

/-! ## Per-user serializer (`transaction_manager.go`)

`EnqueueTransaction` sends the request on the user's buffered channel
(created once per user via `sync.Map.LoadOrStore`), and
`processUserTransactions` — the single worker goroutine per user — receives
and applies the items one at a time. A Go channel delivers values in the
order the sends completed, so the channel contents are modelled as a FIFO
list; an execution is an arbitrary interleaving of successful enqueues and
worker iterations for one user id. -/

inductive QueueOp where
  | enq (r : Nat)
  | deq
deriving DecidableEq, Repr

/-- One step: a successful channel send appends to the queue; one iteration of
the worker's `for txnReq := range queue` pops the head and (synchronously)
applies it, extending the applied log. A `deq` on an empty queue is the
worker blocking: no state change. -/
def queueStep (s : List Nat × List Nat) : QueueOp → List Nat × List Nat
  | .enq r => (s.1 ++ [r], s.2)
  | .deq =>
    match s with
    | ([], a) => ([], a)
    | (x :: q, a) => (q, a ++ [x])

/-- Run an execution from the empty queue; returns (pending queue, applied log). -/
def runQueue (ops : List QueueOp) : List Nat × List Nat :=
  ops.foldl queueStep ([], [])

/-- The requests successfully enqueued, in enqueue order. -/
def enqueuedList (ops : List QueueOp) : List Nat :=
  ops.filterMap (fun op => match op with | .enq r => some r | .deq => none)

/-! ## Processor (`process_transaction.go`, `modify_balance.go`) -/

structure TransactionRequest where
  State : String
  Amount : String
  TransactionID : String
  SourceType : String
deriving DecidableEq, Repr

structure TransactionResult where
  Success : Bool
  ResultBalance : String
  ErrorMessage : String
  StatusCode : Nat
deriving DecidableEq, Repr

/-- The relational store the processor mutates (users and transactions
tables); the lock table lives on the bare connection, outside the DB-tx. -/
structure DBState where
  users : List (Nat × User)
  txns : List Transaction
deriving DecidableEq, Repr

def getUserByID (db : DBState) (userID : Nat) : Option User :=
  (List.find? (fun p => p.1 = userID) db.users).map Prod.snd

def dbUpdateUser (db : DBState) (u : User) : DBState :=
  { db with users := List.map (fun p => if p.1 = u.ID then (u.ID, u) else p) db.users }

/-- `txnRepo.TransactionExists` / `IsDuplicateTransaction`. -/
def TransactionExists (db : DBState) (transactionID : String) : Bool :=
  db.txns.any (fun t => t.TransactionID = transactionID)

def txnCreate (db : DBState) (t : Transaction) : DBState :=
  { db with txns := db.txns ++ [t] }

def txnUpdate (db : DBState) (t : Transaction) : DBState :=
  { db with txns :=
      List.map (fun r => if r.TransactionID = t.TransactionID then t else r) db.txns }

/-- `(*UserUseCase).ModifyBalance` (`modify_balance.go`): validate the user
id and amount, load the user, apply the win/lose effect, persist the updated
row. On an insufficient balance it returns the detailed error built from the
*unmutated* user and leaves the store untouched. -/
def ModifyBalance (db : DBState) (userID : Nat) (amount : String) (isWin : Bool)
    (now : Nat) : Except DomainErr (DBState × User) :=
  if userID = 0 then .error .invalidUserID
  else
    match ValidateAndConvertAmount amount with
    | .error e => .error e
    | .ok amountInCents =>
      match getUserByID db userID with
      | none => .error .userNotFound
      | some user =>
        if isWin then
          let u2 := ApplyWinTransaction user amountInCents now
          .ok (dbUpdateUser db u2, u2)
        else
          match ApplyLoseTransaction user amountInCents now with
          | .error _ => .error (.insufficientBalanceDetailed user.ID amount user.GetBalance)
          | .ok u2 => .ok (dbUpdateUser db u2, u2)

/-- The processor's overall outcome: the HTTP-ish result, the returned error,
the committed store and the lock table after all deferred releases ran. -/
structure ProcOutcome where
  result : TransactionResult
  err : Option DomainErr
  db : DBState
  locks : LockTable
deriving DecidableEq, Repr

/-- `(*Service).processTransactionInternal`: idempotency pre-check, lock
acquire, `Begin` (snapshot), pending-record create, balance mutation, status
update, then `Commit` (publish the snapshot) — or, on a mutation error, mark
the record failed, update it *inside the DB-tx* and `Rollback` (discard the
snapshot). The deferred `ReleaseLock` runs on every exit path after the
acquire. (The store itself is modelled as available: repository-level I/O
failures are outside the claims.) The completed record carries the post-apply
balance in cents (`MarkAsProcessed`, entity signature). -/
def processTransactionInternal (committed : DBState) (locks : LockTable)
    (userID : Nat) (req : TransactionRequest) (lockTimeout now : Nat) : ProcOutcome :=
  if TransactionExists committed req.TransactionID then
    { result := { Success := false, ResultBalance := "",
                  ErrorMessage := "Transaction already processed", StatusCode := 409 }
      err := some (.duplicateTransaction req.TransactionID userID req.SourceType)
      db := committed
      locks := locks }
  else
    let acq := AcquireLock locks userID now lockTimeout
    match acq.2 with
    | some e =>
      { result := { Success := false, ResultBalance := "",
                    ErrorMessage := "User account is locked for processing",
                    StatusCode := 409 }
        err := some e, db := committed, locks := acq.1 }
    | none =>
      let tx0 := committed
      match NewTransaction userID req.TransactionID req.SourceType req.State req.Amount now with
      | .error e =>
        { result := { Success := false, ResultBalance := "",
                      ErrorMessage := "Invalid transaction data", StatusCode := 400 }
          err := some e, db := committed, locks := ReleaseLock acq.1 userID }
      | .ok txn =>
        let tx1 := txnCreate tx0 txn
        let isWin := txn.State = .win
        match ModifyBalance tx1 userID req.Amount isWin now with
        | .error e =>
          let txnFailed := MarkAsFailed txn now (errMessage e)
          let _tx2 := txnUpdate tx1 txnFailed
          let statusCode := if IsInsufficientBalanceError e then 400 else 500
          { result := { Success := false, ResultBalance := "",
                        ErrorMessage := errMessage e, StatusCode := statusCode }
            err := some e, db := committed, locks := ReleaseLock acq.1 userID }
        | .ok (tx2, user) =>
          let txnDone := MarkAsProcessed txn now user.balance
          let tx3 := txnUpdate tx2 txnDone
          { result := { Success := true, ResultBalance := user.GetBalance,
                        ErrorMessage := "", StatusCode := 200 }
            err := none, db := tx3, locks := ReleaseLock acq.1 userID }

/-! ## Specification-side notions used to state the claims -/

/-- The ten ASCII decimal digit characters. -/
def digitChars : List Char := ['0', '1', '2', '3', '4', '5', '6', '7', '8', '9']

/-- Fractional part padded to exactly two digits (what the `switch len(parts[1])`
in `ValidateAndConvertAmount` appends after the whole part). -/
def padTwo (F : List Char) : List Char := F ++ List.replicate (2 - F.length) '0'

/-- A canonical decimal numeral: nonempty, digits only, and no leading zero
except for `"0"` itself. -/
def canonicalNumeral (W : List Char) : Prop :=
  (∀ c ∈ W, c ∈ digitChars) ∧ W ≠ [] ∧ (W = ['0'] ∨ W.head? ≠ some '0')

/-! ### Concrete fixtures for counterexamples and witnesses -/

/-- User 1 with balance 10.00 (1000 cents). -/
def fixtureUser : User :=
  { ID := 1, balance := 1000, CreatedAt := 0, UpdatedAt := 0, TransactionCount := 0 }

/-- Store: user 1 (balance 10.00), no transactions. -/
def fixtureDB : DBState := { users := [(1, fixtureUser)], txns := [] }

/-- `POST lose 20.00 tx="c"` (spec scenario 3). -/
def fixtureLoseReq : TransactionRequest :=
  { State := "lose", Amount := "20.00", TransactionID := "c", SourceType := "game" }

/-- A stored completed record for external id `"d"` with result balance 110.00. -/
def fixtureStoredTxn : Transaction :=
  { UserID := 1, TransactionID := "d", Source := .game, State := .win,
    AmountInCents := 1000, CreatedAt := 0, ProcessedAt := some 1,
    ResultBalanceInCents := 11000, Status := .completed, ErrorMessage := "" }

/-- Store that already contains the record for `"d"`. -/
def fixtureDupDB : DBState := { users := [(1, fixtureUser)], txns := [fixtureStoredTxn] }

/-- A repeat submission of external id `"d"`. -/
def fixtureDupReq : TransactionRequest :=
  { State := "win", Amount := "10.00", TransactionID := "d", SourceType := "game" }

/-- A completed (terminal) transaction record. -/
def fixtureCompletedTxn : Transaction :=
  { UserID := 1, TransactionID := "t", Source := .game, State := .win,
    AmountInCents := 100, CreatedAt := 0, ProcessedAt := some 0,
    ResultBalanceInCents := 100, Status := .completed, ErrorMessage := "" }

/-- A lock row for user 1 that is still live at time 50 (expires at 100). -/
def fixtureLiveLock : UserLock :=
  { lockedAt := 0, expiresAt := 100, createdAt := 0, updatedAt := 0 }

/-- A PostgreSQL duplicate-key error message. -/
def dupKeyMsg : String := "duplicate key value violates unique constraint"

/-- User 1 with balance 5.00 (500 cents). -/
def fixtureUser500 : User :=
  { ID := 1, balance := 500, CreatedAt := 0, UpdatedAt := 0, TransactionCount := 0 }

/-! # Theorems -/

/-! ## General helper lemmas -/

theorem wrap64_eq_self (z : Int) (h1 : -(2 ^ 63) ≤ z) (h2 : z < 2 ^ 63) :
    wrap64 z = z := by
  unfold wrap64
  rw [Int.emod_eq_of_lt (by omega) (by omega)]
  omega

/-- The model of the lock-acquire upsert never reports an error (the Go code
returns `nil` whenever `Exec` does not fail, and the `ON CONFLICT` clause
absorbs the conflict). -/
theorem AcquireLock_no_error (locks : LockTable) (userID now duration : Nat) :
    (AcquireLock locks userID now duration).2 = none := by
  unfold AcquireLock
  cases lockLookup locks userID with
  | none => rfl
  | some row =>
    by_cases h : row.expiresAt ≤ now <;> simp [h]

theorem getUserByID_txnCreate (db : DBState) (t : Transaction) (uid : Nat) :
    getUserByID (txnCreate db t) uid = getUserByID db uid := rfl

/-! ## C2 — distributed lock acquire on a live lock -/

/-- C2: with a live lock row present (`expires_at = 100 > now = 50`),
`AcquireLock` completes *successfully* — the upsert affects zero rows, no
error is produced, the existing row is untouched and the caller is told the
lock was acquired. More generally the acquire can never report `UserLocked`
(absent infrastructure-level failures): the `ON CONFLICT` clause prevents
the duplicate-key error that the `ErrUserLocked` branch looks for, and the
code never inspects `RowsAffected`. This contradicts the claim that a live
lock rejects the acquire with `UserLocked`. -/
theorem C2_live_lock_acquire_not_rejected :
    AcquireLock [(1, fixtureLiveLock)] 1 50 30 = ([(1, fixtureLiveLock)], none) ∧
    ∀ (locks : LockTable) (userID now duration : Nat),
      (AcquireLock locks userID now duration).2 ≠ some DomainErr.userLocked := by
  refine ⟨rfl, ?_⟩
  intro locks userID now duration
  rw [AcquireLock_no_error]
  simp

/-! ## C3 — idempotency gate returns a conflict error, not the stored outcome -/

/-- C3 (amended): whenever the submitted external id is already present in
the transaction store, `processTransactionInternal` returns the fixed
conflict result (`Success = false`, empty result balance, message
"Transaction already processed", HTTP 409) together with a
`DuplicateTransaction` error, discarding the stored record's status and
result balance; the store and lock table are untouched. -/
theorem C3_duplicate_returns_conflict (committed : DBState) (locks : LockTable)
    (userID : Nat) (req : TransactionRequest) (lockTimeout now : Nat)
    (h : TransactionExists committed req.TransactionID = true) :
    processTransactionInternal committed locks userID req lockTimeout now =
      { result := { Success := false, ResultBalance := "",
                    ErrorMessage := "Transaction already processed", StatusCode := 409 },
        err := some (.duplicateTransaction req.TransactionID userID req.SourceType),
        db := committed, locks := locks } := by
  unfold processTransactionInternal
  rw [if_pos h]

/-- Witness for C3: a concrete duplicate submission of `"d"`. -/
theorem C3_witness :
    processTransactionInternal fixtureDupDB [] 1 fixtureDupReq 5 100 =
      { result := { Success := false, ResultBalance := "",
                    ErrorMessage := "Transaction already processed", StatusCode := 409 },
        err := some (.duplicateTransaction "d" 1 "game"),
        db := fixtureDupDB, locks := [] } :=
  C3_duplicate_returns_conflict fixtureDupDB [] 1 fixtureDupReq 5 100 (by decide)

/-- C3 counterexample: the stored record for `"d"` is completed with result
balance `"110.00"`, yet the processor's answer to the repeat submission has
`Success = false`, an *empty* result balance, status 409 and a
`DuplicateTransaction` error — not the stored record's outcome. -/
theorem C3_counterexample :
    fixtureStoredTxn.Status = .completed ∧
    AmountInCentsToString fixtureStoredTxn.ResultBalanceInCents = "110.00" ∧
    (processTransactionInternal fixtureDupDB [] 1 fixtureDupReq 5 100).result.Success = false ∧
    (processTransactionInternal fixtureDupDB [] 1 fixtureDupReq 5 100).result.ResultBalance = "" ∧
    (processTransactionInternal fixtureDupDB [] 1 fixtureDupReq 5 100).result.StatusCode = 409 ∧
    (processTransactionInternal fixtureDupDB [] 1 fixtureDupReq 5 100).err =
      some (DomainErr.duplicateTransaction "d" 1 "game") :=
  ⟨rfl, rfl, rfl, rfl, rfl, rfl⟩

/-! ## C4 — duplicate-key errors and the transient classifier -/

theorem retryLoop_const_transient (msg : String) (h : isTransientError msg = true) :
    ∀ (remaining attempt : Nat), 1 ≤ remaining →
      retryLoop (fun _ => some msg) attempt remaining = (some msg, attempt + remaining) := by
  intro remaining
  induction remaining with
  | zero => intro attempt hr; omega
  | succ r ih =>
    intro attempt _
    unfold retryLoop
    by_cases hr : r = 0
    · subst hr; simp [h]
    · have hrec := ih (attempt + 1) (by omega)
      have harith : attempt + 1 + r = attempt + (r + 1) := by omega
      simp only [h, if_true, if_neg hr, hrec, harith]

/-- C4 (amended): the transient-error classifier `isTransientError` counts any
message containing `"duplicate key"` (case-insensitively) as transient, and
`RetryOnTransientError` therefore retries such a failing operation until the
attempt budget is exhausted (here: every attempt fails with the same
duplicate-key message, and exactly `maxRetries` attempts are executed). -/
theorem C4_duplicate_key_is_transient (msg : String)
    (h : goContains (String.mk (goToLowerL msg.toList)) "duplicate key" = true)
    (maxRetries : Nat) (hm : 1 ≤ maxRetries) :
    isTransientError msg = true ∧
    RetryOnTransientError maxRetries (fun _ => some msg) = (some msg, maxRetries) := by
  have ht : isTransientError msg = true := by
    simp only [isTransientError]
    rw [h]
    simp
  refine ⟨ht, ?_⟩
  unfold RetryOnTransientError
  simpa using retryLoop_const_transient msg ht maxRetries 0 hm

/-- Witness for C4 at a concrete duplicate-key message and 3 attempts. -/
theorem C4_witness :
    isTransientError dupKeyMsg = true ∧
    RetryOnTransientError 3 (fun _ => some dupKeyMsg) = (some dupKeyMsg, 3) :=
  C4_duplicate_key_is_transient dupKeyMsg (by decide) 3 (by decide)

/-- C4 counterexample: a PostgreSQL duplicate-key message is classified
transient (the claim says it never is), and with the default 5 attempts the
operation is retried until the budget is exhausted (5 attempts, not 1). -/
theorem C4_counterexample :
    isTransientError dupKeyMsg = true ∧
    RetryOnTransientError 5 (fun _ => some dupKeyMsg) = (some dupKeyMsg, 5) ∧
    (RetryOnTransientError 5 (fun _ => some dupKeyMsg)).2 ≠ 1 :=
  ⟨rfl, rfl, by decide⟩

/-! ## C6 — terminal transaction statuses are not protected -/

/-- C6 counterexample: calling `MarkAsFailed` on a *completed* record moves
its status to `failed` — the terminal state is left, contradicting the claim
that a completed or failed record is never changed. -/
theorem C6_counterexample :
    fixtureCompletedTxn.Status = .completed ∧
    (MarkAsFailed fixtureCompletedTxn 1 "boom").Status = .failed ∧
    (MarkAsFailed fixtureCompletedTxn 1 "boom").Status ≠ .completed :=
  ⟨rfl, rfl, by decide⟩

/-- C6 (amended): `MarkAsProcessed` always sets status `completed` and
`MarkAsFailed` always sets status `failed`, whatever the current status; the
entity does not guard terminal states (the pending→terminal discipline is
the callers' responsibility). In particular a pending record moves only to
`completed` or `failed`. -/
theorem C6_marks_set_status_unconditionally (t : Transaction) (now : Nat)
    (msg : String) (cents : Int) :
    (MarkAsProcessed t now cents).Status = .completed ∧
    (MarkAsFailed t now msg).Status = .failed :=
  ⟨rfl, rfl⟩

/-! ## C7 — the debit rule of the user aggregate -/

/-- C7: for a user whose balance is a valid `int64` value and a non-negative
debit amount, `ApplyLoseTransaction` fails with `InsufficientBalance` when
`balance < cents` (producing no updated user — the Go method returns before
mutating anything), and otherwise subtracts exactly `cents`, increments the
transaction count by exactly 1 and sets updated-at to `now`, leaving all
other fields unchanged. -/
theorem C7_apply_lose_transaction (u : User) (cents : Int) (now : Nat)
    (hlo : -(2 ^ 63) ≤ u.balance) (hhi : u.balance < 2 ^ 63)
    (hc : 0 ≤ cents) (hcount : u.TransactionCount + 1 < 2 ^ 64) :
    (u.balance < cents → ApplyLoseTransaction u cents now = .error .insufficientBalance) ∧
    (cents ≤ u.balance →
      ApplyLoseTransaction u cents now = .ok
        { u with balance := u.balance - cents, UpdatedAt := now,
                 TransactionCount := u.TransactionCount + 1 }) := by
  constructor
  · intro h
    unfold ApplyLoseTransaction
    rw [if_pos h]
  · intro h
    unfold ApplyLoseTransaction
    rw [if_neg (by omega)]
    rw [wrap64_eq_self _ (by omega) (by omega), Nat.mod_eq_of_lt hcount]

/-- Witness for C7: balance 5.00; a 6.00 debit fails, a 2.00 debit succeeds. -/
theorem C7_witness :
    fixtureUser500.balance < 600 ∧
    ApplyLoseTransaction fixtureUser500 600 9 = .error .insufficientBalance ∧
    (200 : Int) ≤ fixtureUser500.balance ∧
    ApplyLoseTransaction fixtureUser500 200 9 = .ok
      { fixtureUser500 with balance := fixtureUser500.balance - 200, UpdatedAt := 9,
                            TransactionCount := fixtureUser500.TransactionCount + 1 } :=
  ⟨by decide,
   (C7_apply_lose_transaction fixtureUser500 600 9 (by decide) (by decide) (by decide)
     (by decide)).1 (by decide),
   by decide,
   (C7_apply_lose_transaction fixtureUser500 200 9 (by decide) (by decide) (by decide)
     (by decide)).2 (by decide)⟩

/-! ## C9 — FIFO of the per-user serializer -/

theorem runQueue_invariant (ops : List QueueOp) :
    ∀ (q a : List Nat),
      (ops.foldl queueStep (q, a)).2 ++ (ops.foldl queueStep (q, a)).1 =
        a ++ q ++ enqueuedList ops := by
  induction ops with
  | nil => intro q a; simp [enqueuedList]
  | cons op rest ih =>
    intro q a
    cases op with
    | enq r =>
      have hs : queueStep (q, a) (.enq r) = (q ++ [r], a) := rfl
      simp [List.foldl_cons, hs, ih, enqueuedList]
    | deq =>
      cases q with
      | nil =>
        have hs : queueStep (([] : List Nat), a) .deq = ([], a) := rfl
        simp [List.foldl_cons, hs, ih, enqueuedList]
      | cons x q' =>
        have hs : queueStep (x :: q', a) .deq = (q', a ++ [x]) := rfl
        simp [List.foldl_cons, hs, ih, enqueuedList]

/-- C9: in every interleaved execution of the per-user serializer, the
applied log followed by the still-pending queue equals the successful-enqueue
order — i.e. the worker applies items in exactly FIFO enqueue order, and the
applied log is always the order-preserving prefix of the enqueue order. In
particular, if A enqueues before B and both are applied, A is applied first. -/
theorem C9_fifo_order (ops : List QueueOp) :
    (runQueue ops).2 ++ (runQueue ops).1 = enqueuedList ops ∧
    (runQueue ops).2 = (enqueuedList ops).take (runQueue ops).2.length := by
  have h1 : (runQueue ops).2 ++ (runQueue ops).1 = enqueuedList ops := by
    simpa [runQueue] using runQueue_invariant ops [] []
  refine ⟨h1, ?_⟩
  rw [← h1, List.take_left]

/-! ## C1 — lose with insufficient balance: failed record is rolled back -/

/-- C1 (amended): for a lose transaction on an existing user whose balance is
below the amount, the processor marks the freshly created record failed with
the detailed insufficient-balance message and updates it *inside* the DB
transaction, but then **rolls the DB transaction back** (it does not commit),
returns a classified InsufficientBalance error with HTTP 400, and leaves the
committed store — user balance *and* transactions table — exactly as before:
afterwards **no** transactions row with that external id exists. -/
theorem C1_insufficient_balance_rolled_back (committed : DBState) (locks : LockTable)
    (userID : Nat) (req : TransactionRequest) (lockTimeout now : Nat)
    (user : User) (cents : Int) (src : SourceType)
    (hdup : TransactionExists committed req.TransactionID = false)
    (htid : ¬ req.TransactionID = "")
    (hsrc : ParseSourceType req.SourceType = .ok src)
    (hstate : ParseTransactionState req.State = .ok .lose)
    (hamt : ValidateAndConvertAmount req.Amount = .ok cents)
    (huid : ¬ userID = 0)
    (huser : getUserByID committed userID = some user)
    (hins : user.balance < cents) :
    processTransactionInternal committed locks userID req lockTimeout now =
      { result := { Success := false, ResultBalance := "",
                    ErrorMessage :=
                      errMessage (.insufficientBalanceDetailed user.ID req.Amount user.GetBalance),
                    StatusCode := 400 },
        err := some (.insufficientBalanceDetailed user.ID req.Amount user.GetBalance),
        db := committed,
        locks := ReleaseLock (AcquireLock locks userID now lockTimeout).1 userID } ∧
    TransactionExists
      (processTransactionInternal committed locks userID req lockTimeout now).db
      req.TransactionID = false := by
  obtain ⟨txnV, hnewV, hSt⟩ : ∃ t,
      NewTransaction userID req.TransactionID req.SourceType req.State req.Amount now =
        .ok t ∧ t.State = .lose := by
    unfold NewTransaction
    rw [if_neg htid, hsrc, hstate, hamt]
    exact ⟨_, rfl, rfl⟩
  have hmod : ModifyBalance (txnCreate committed txnV) userID req.Amount false now =
      .error (.insufficientBalanceDetailed user.ID req.Amount user.GetBalance) := by
    unfold ModifyBalance
    rw [if_neg huid, hamt, getUserByID_txnCreate, huser]
    have hl : ApplyLoseTransaction user cents now = .error .insufficientBalance := by
      unfold ApplyLoseTransaction
      rw [if_pos hins]
    simp [hl]
  have hmain : processTransactionInternal committed locks userID req lockTimeout now =
      { result := { Success := false, ResultBalance := "",
                    ErrorMessage :=
                      errMessage (.insufficientBalanceDetailed user.ID req.Amount user.GetBalance),
                    StatusCode := 400 },
        err := some (.insufficientBalanceDetailed user.ID req.Amount user.GetBalance),
        db := committed,
        locks := ReleaseLock (AcquireLock locks userID now lockTimeout).1 userID } := by
    have hdec : (decide (TransactionState.lose = TransactionState.win)) = false := rfl
    unfold processTransactionInternal
    rw [if_neg (by simp [hdup])]
    simp only [AcquireLock_no_error, hnewV, hSt, hdec, hmod, IsInsufficientBalanceError]
    simp
  exact ⟨hmain, by rw [hmain]; exact hdup⟩

/-- Witness for C1: user 1 with balance 10.00, `POST lose 20.00 tx="c"`. -/
theorem C1_witness :
    processTransactionInternal fixtureDB [] 1 fixtureLoseReq 5 100 =
      { result := { Success := false, ResultBalance := "",
                    ErrorMessage :=
                      "insufficient balance for user 1: required 20.00, available 10.00",
                    StatusCode := 400 },
        err := some (.insufficientBalanceDetailed 1 "20.00" "10.00"),
        db := fixtureDB, locks := [] } ∧
    TransactionExists (processTransactionInternal fixtureDB [] 1 fixtureLoseReq 5 100).db
      "c" = false := by
  have h := C1_insufficient_balance_rolled_back fixtureDB [] 1 fixtureLoseReq 5 100
    fixtureUser 2000 .game (by decide) (by decide) (by decide) (by decide) rfl
    (by decide) rfl (by decide)
  exact h

/-- C1 counterexample: at the concrete scenario (balance 10.00, lose 20.00,
tx "c") the processor answers 400 with a classified insufficient-balance
error and leaves the committed store unchanged — in particular **no**
transactions row with id "c" (failed or otherwise) exists afterwards, where
the claim asserts a committed failed row must exist. -/
theorem C1_counterexample :
    (processTransactionInternal fixtureDB [] 1 fixtureLoseReq 5 100).result.StatusCode = 400 ∧
    (processTransactionInternal fixtureDB [] 1 fixtureLoseReq 5 100).err =
      some (DomainErr.insufficientBalanceDetailed 1 "20.00" "10.00") ∧
    (processTransactionInternal fixtureDB [] 1 fixtureLoseReq 5 100).db = fixtureDB ∧
    ¬ ∃ t ∈ (processTransactionInternal fixtureDB [] 1 fixtureLoseReq 5 100).db.txns,
        t.TransactionID = "c" ∧ t.Status = .failed := by
  refine ⟨rfl, rfl, rfl, ?_⟩
  decide

/-! ## Decimal-digit lemmas (for the money-codec claims) -/

theorem digitVal_le_nine (c : Char) (h : c ∈ digitChars) : digitVal c ≤ 9 := by
  fin_cases h <;> decide

theorem digitChar_digitVal (c : Char) (h : c ∈ digitChars) :
    Nat.digitChar (digitVal c) = c := by
  fin_cases h <;> decide

theorem digit_goIsDigit (c : Char) (h : c ∈ digitChars) : goIsDigit c = true := by
  fin_cases h <;> decide

theorem digit_not_space (c : Char) (h : c ∈ digitChars) : goIsSpace c = false := by
  fin_cases h <;> decide

theorem digit_ne_dot (c : Char) (h : c ∈ digitChars) : c ≠ '.' := by
  fin_cases h <;> decide

theorem digit_ne_minus (c : Char) (h : c ∈ digitChars) : c ≠ '-' := by
  fin_cases h <;> decide

theorem digit_ne_plus (c : Char) (h : c ∈ digitChars) : c ≠ '+' := by
  fin_cases h <;> decide

theorem digitVal_pos (c : Char) (hc : c ∈ digitChars) (h0 : c ≠ '0') :
    1 ≤ digitVal c := by
  fin_cases hc
  · exact absurd rfl h0
  all_goals decide

theorem natOfDigits_foldl (L : List Char) : ∀ (a : Nat),
    L.foldl (fun acc c => 10 * acc + digitVal c) a =
      a * 10 ^ L.length + natOfDigits L := by
  induction L with
  | nil => intro a; simp [natOfDigits]
  | cons c L ih =>
    intro a
    have h1 := ih (10 * a + digitVal c)
    have h2 := ih (10 * 0 + digitVal c)
    simp only [natOfDigits, List.foldl_cons, List.length_cons] at *
    rw [h1, h2]
    ring

theorem natOfDigits_cons (c : Char) (L : List Char) :
    natOfDigits (c :: L) = digitVal c * 10 ^ L.length + natOfDigits L := by
  have h := natOfDigits_foldl L (10 * 0 + digitVal c)
  show (c :: L).foldl (fun acc c => 10 * acc + digitVal c) 0 = _
  rw [List.foldl_cons, h]
  ring

theorem natOfDigits_append (L M : List Char) :
    natOfDigits (L ++ M) = natOfDigits L * 10 ^ M.length + natOfDigits M := by
  have h := natOfDigits_foldl M (natOfDigits L)
  simp only [natOfDigits, List.foldl_append] at *
  exact h

theorem natOfDigits_lt (L : List Char) (h : ∀ c ∈ L, c ∈ digitChars) :
    natOfDigits L < 10 ^ L.length := by
  induction L with
  | nil => simp [natOfDigits]
  | cons c L ih =>
    rw [natOfDigits_cons]
    have h1 : digitVal c ≤ 9 := digitVal_le_nine c (h c (by simp))
    have h2 : natOfDigits L < 10 ^ L.length := ih (fun x hx => h x (by simp [hx]))
    have h3 : 10 ^ (c :: L).length = 10 * 10 ^ L.length := by
      rw [List.length_cons, pow_succ]
      ring
    rw [h3]
    calc digitVal c * 10 ^ L.length + natOfDigits L
        < digitVal c * 10 ^ L.length + 10 ^ L.length := by omega
      _ = (digitVal c + 1) * 10 ^ L.length := by ring
      _ ≤ 10 * 10 ^ L.length := Nat.mul_le_mul_right _ (by omega)

theorem natOfDigits_head_pos (c : Char) (L : List Char)
    (hc : c ∈ digitChars) (h0 : c ≠ '0') : 1 ≤ natOfDigits (c :: L) := by
  rw [natOfDigits_cons]
  have h1 : 1 ≤ digitVal c := digitVal_pos c hc h0
  have h2 : 1 ≤ 10 ^ L.length := Nat.one_le_pow _ _ (by norm_num)
  have := Nat.mul_le_mul h1 h2
  omega

theorem natDigitsF_fuel (f1 : Nat) : ∀ (f2 n : Nat), n < f1 → n < f2 →
    natDigitsF f1 n = natDigitsF f2 n := by
  induction f1 with
  | zero => intro f2 n h1 _; omega
  | succ f ih =>
    intro f2 n h1 h2
    cases f2 with
    | zero => omega
    | succ g =>
      simp only [natDigitsF]
      by_cases hn : n < 10
      · simp [hn]
      · simp only [if_neg hn]
        have hd : n / 10 < n := Nat.div_lt_self (by omega) (by omega)
        rw [ih g (n / 10) (by omega) (by omega)]

theorem natDigits_unfold (n : Nat) :
    natDigits n = if n < 10 then [Nat.digitChar n]
      else natDigits (n / 10) ++ [Nat.digitChar (n % 10)] := by
  have h0 : natDigits n = if n < 10 then [Nat.digitChar n]
      else natDigitsF n (n / 10) ++ [Nat.digitChar (n % 10)] := rfl
  rw [h0]
  by_cases hn : n < 10
  · simp [hn]
  · simp only [if_neg hn]
    have hd : n / 10 < n := Nat.div_lt_self (by omega) (by omega)
    rw [natDigitsF_fuel n (n / 10 + 1) (n / 10) (by omega) (by omega)]
    rfl

theorem natDigits_len_le (n : Nat) : ∀ (k : Nat), n < 10 ^ k → 1 ≤ k →
    (natDigits n).length ≤ k := by
  induction n using Nat.strong_induction_on with
  | _ n ih =>
    intro k hk h1
    rw [natDigits_unfold]
    by_cases hn : n < 10
    · simp only [if_pos hn, List.length_cons, List.length_nil]
      omega
    · simp only [if_neg hn, List.length_append, List.length_cons, List.length_nil]
      have hd : n / 10 < n := Nat.div_lt_self (by omega) (by omega)
      have hk2 : 2 ≤ k := by
        by_contra hcon
        push_neg at hcon
        interval_cases k
        simp at hk
        omega
      have hpow : 10 * 10 ^ (k - 1) = 10 ^ k := by
        have hke : k - 1 + 1 = k := by omega
        calc 10 * 10 ^ (k - 1) = 10 ^ (k - 1 + 1) := by rw [pow_succ]; ring
          _ = 10 ^ k := by rw [hke]
      have hdiv : n / 10 < 10 ^ (k - 1) := by
        rw [Nat.div_lt_iff_lt_mul (by norm_num : 0 < 10)]
        calc n < 10 ^ k := hk
          _ = 10 ^ (k - 1) * 10 := by rw [← hpow]; ring
      have := ih (n / 10) hd (k - 1) hdiv (by omega)
      omega

theorem natDigits_natOfDigits (L : List Char) :
    (∀ c ∈ L, c ∈ digitChars) → L ≠ [] → (L.head? = some '0' → L = ['0']) →
    natDigits (natOfDigits L) = L := by
  induction L using List.reverseRecOn with
  | nil => intro _ hne _; exact absurd rfl hne
  | append_singleton M c ih =>
    intro hd _ hhead
    have hcM : c ∈ digitChars := hd c (by simp)
    by_cases hM : M = []
    · subst hM
      simp only [List.nil_append]
      have hv : natOfDigits [c] = digitVal c := by
        rw [natOfDigits_cons]
        simp [natOfDigits]
      rw [hv, natDigits_unfold,
        if_pos (by have := digitVal_le_nine c hcM; omega),
        digitChar_digitVal c hcM]
    · have hdM : ∀ x ∈ M, x ∈ digitChars := fun x hx => hd x (by simp [hx])
      have hlenM : 1 ≤ M.length := by
        cases M with
        | nil => exact absurd rfl hM
        | cons m ms => simp
      have hheadne : M.head? ≠ some '0' := by
        intro hm0
        have hL0 : (M ++ [c]).head? = some '0' := by
          cases M with
          | nil => exact absurd rfl hM
          | cons m ms => simpa using hm0
        have hLen := congrArg List.length (hhead hL0)
        rw [List.length_append] at hLen
        simp only [List.length_cons, List.length_nil] at hLen
        omega
      have ihM := ih hdM hM (fun h => absurd h hheadne)
      have happ : natOfDigits (M ++ [c]) = natOfDigits M * 10 + digitVal c := by
        rw [natOfDigits_append]
        have h1 : natOfDigits [c] = digitVal c := by
          rw [natOfDigits_cons]; simp [natOfDigits]
        simp [h1]
      have hMpos : 1 ≤ natOfDigits M := by
        cases M with
        | nil => exact absurd rfl hM
        | cons m ms =>
          refine natOfDigits_head_pos m ms (hdM m (by simp)) ?_
          intro hm0
          exact hheadne (by simp [hm0])
      have hvle : digitVal c ≤ 9 := digitVal_le_nine c hcM
      rw [happ, natDigits_unfold, if_neg (by omega)]
      have hq : (natOfDigits M * 10 + digitVal c) / 10 = natOfDigits M := by omega
      have hr : (natOfDigits M * 10 + digitVal c) % 10 = digitVal c := by omega
      rw [hq, hr, ihM, digitChar_digitVal c hcM]

theorem leftPad_natDigits (L : List Char) :
    (∀ c ∈ L, c ∈ digitChars) → L ≠ [] →
    leftPadZeros L.length (natDigits (natOfDigits L)) = L := by
  induction L with
  | nil => intro _ hne; exact absurd rfl hne
  | cons c R ih =>
    intro hd _
    by_cases hc0 : c = '0'
    · subst hc0
      have hnod : natOfDigits ('0' :: R) = natOfDigits R := by
        rw [natOfDigits_cons]
        simp [digitVal]
      cases R with
      | nil => decide
      | cons r rs =>
        have hdR : ∀ x ∈ r :: rs, x ∈ digitChars := fun x hx => hd x (by simp [hx])
        have ihR := ih hdR (by simp)
        have hlends : (natDigits (natOfDigits (r :: rs))).length ≤ (r :: rs).length :=
          natDigits_len_le _ _ (natOfDigits_lt _ hdR) (by simp)
        rw [hnod]
        unfold leftPadZeros at ihR ⊢
        have hl : ('0' :: r :: rs : List Char).length -
            (natDigits (natOfDigits (r :: rs))).length =
            ((r :: rs : List Char).length - (natDigits (natOfDigits (r :: rs))).length) + 1 := by
          simp only [List.length_cons] at *
          omega
        rw [hl, List.replicate_succ, List.cons_append, ihR]
    · have hrt := natDigits_natOfDigits (c :: R) hd (by simp)
        (by intro h0; simp at h0; exact absurd h0 hc0)
      rw [hrt]
      unfold leftPadZeros
      simp

/-! ## String-structure lemmas (trim and split) -/

theorem dropWhile_eq_self (p : Char → Bool) (l : List Char)
    (h : ∀ c ∈ l, p c = false) : l.dropWhile p = l := by
  cases l with
  | nil => rfl
  | cons c t => simp [List.dropWhile_cons, h c (by simp)]

theorem goTrimSpace_eq_self (l : List Char) (h : ∀ c ∈ l, goIsSpace c = false) :
    goTrimSpace l = l := by
  unfold goTrimSpace
  rw [dropWhile_eq_self _ _ h,
    dropWhile_eq_self _ _ (fun c hc => h c (List.mem_reverse.mp hc)),
    List.reverse_reverse]

theorem splitOnChar_ne_nil (sep : Char) (l : List Char) : splitOnChar sep l ≠ [] := by
  induction l with
  | nil => simp [splitOnChar]
  | cons c t ih =>
    simp only [splitOnChar]
    cases hsp : splitOnChar sep t with
    | nil => exact absurd hsp ih
    | cons h' t' => by_cases hc : c = sep <;> simp [hc]

theorem splitOnChar_no_sep (sep : Char) (l : List Char) (h : ∀ c ∈ l, c ≠ sep) :
    splitOnChar sep l = [l] := by
  induction l with
  | nil => rfl
  | cons c t ih =>
    have ht := ih (fun x hx => h x (by simp [hx]))
    simp only [splitOnChar, ht]
    rw [if_neg (h c (by simp))]

theorem splitOnChar_append (sep : Char) (W F : List Char) (h : ∀ c ∈ W, c ≠ sep) :
    splitOnChar sep (W ++ sep :: F) = W :: splitOnChar sep F := by
  induction W with
  | nil =>
    simp only [List.nil_append, splitOnChar]
    cases hsp : splitOnChar sep F with
    | nil => exact absurd hsp (splitOnChar_ne_nil sep F)
    | cons h' t' => simp
  | cons c W' ih =>
    have hW' := ih (fun x hx => h x (by simp [hx]))
    simp only [List.cons_append, splitOnChar, List.append_eq, hW']
    rw [if_neg (h c (by simp))]

theorem mem_splitOnChar (sep : Char) (l : List Char) :
    ∀ p ∈ splitOnChar sep l, ∀ c ∈ p, c ∈ l ∧ c ≠ sep := by
  induction l with
  | nil =>
    intro p hp c hc
    simp only [splitOnChar, List.mem_singleton] at hp
    subst hp
    simp at hc
  | cons x t ih =>
    intro p hp c hc
    simp only [splitOnChar] at hp
    cases hsp : splitOnChar sep t with
    | nil => exact absurd hsp (splitOnChar_ne_nil sep t)
    | cons h' t' =>
      simp only [hsp] at hp
      by_cases hx : x = sep
      · rw [if_pos hx] at hp
        rcases List.mem_cons.mp hp with rfl | hp2
        · simp at hc
        · have := ih p (by rw [hsp]; exact hp2) c hc
          exact ⟨List.mem_cons_of_mem x this.1, this.2⟩
      · rw [if_neg hx] at hp
        rcases List.mem_cons.mp hp with rfl | hp2
        · rcases List.mem_cons.mp hc with rfl | hc2
          · exact ⟨List.mem_cons_self _ _, hx⟩
          · have := ih h' (by rw [hsp]; exact List.mem_cons_self _ _) c hc2
            exact ⟨List.mem_cons_of_mem x this.1, this.2⟩
        · have := ih p (by rw [hsp]; exact List.mem_cons_of_mem h' hp2) c hc
          exact ⟨List.mem_cons_of_mem x this.1, this.2⟩

/-! ## Formatting lemma: the formatter inverts the digit concatenation -/

/-- For a canonical whole part `W` and a two-digit padded fractional part `P`,
formatting `natOfDigits (W ++ P)` cents yields exactly `W.P`. -/
theorem format_concat (W P : List Char)
    (hW : ∀ c ∈ W, c ∈ digitChars) (hWne : W ≠ [])
    (hWc : W = ['0'] ∨ W.head? ≠ some '0')
    (hP : ∀ c ∈ P, c ∈ digitChars) (hPlen : P.length = 2) :
    AmountInCentsToStringL ((natOfDigits (W ++ P) : Nat) : Int) = W ++ '.' :: P := by
  have hdWP : ∀ c ∈ W ++ P, c ∈ digitChars := by
    intro c hc
    rcases List.mem_append.mp hc with h | h
    exacts [hW c h, hP c h]
  have hWPne : W ++ P ≠ [] := by
    intro h
    exact hWne (List.append_eq_nil.mp h).1
  have hlenWP : (W ++ P).length = W.length + 2 := by
    rw [List.length_append, hPlen]
  have hWlen1 : 1 ≤ W.length := by
    cases W with
    | nil => exact absurd rfl hWne
    | cons _ _ => simp
  have hpad3 : leftPadZeros 3 (natDigits (natOfDigits (W ++ P))) = W ++ P := by
    rcases hWc with h0 | hne0
    · have h3 : (W ++ P).length = 3 := by rw [hlenWP, h0]; rfl
      rw [← h3]
      exact leftPad_natDigits _ hdWP hWPne
    · have hhead : (W ++ P).head? = some '0' → W ++ P = ['0'] := by
        intro hh
        exfalso
        cases W with
        | nil => exact absurd rfl hWne
        | cons w ws =>
          simp only [List.cons_append, List.head?_cons, Option.some.injEq] at hh
          exact hne0 (by simp [hh])
      have hrt := natDigits_natOfDigits (W ++ P) hdWP hWPne hhead
      rw [hrt]
      unfold leftPadZeros
      have hz : 3 - (W ++ P).length = 0 := by omega
      rw [hz]
      simp
  have hnn : ¬ ((natOfDigits (W ++ P) : Int) < 0) :=
    not_lt.mpr (Int.natCast_nonneg _)
  simp only [AmountInCentsToStringL, goIntToDecimalChars, if_neg hnn,
    Int.natAbs_ofNat, hpad3, hlenWP]
  have ht : (W ++ P).take (W.length + 2 - 2) = W := by
    have he : W.length + 2 - 2 = W.length := by omega
    rw [he, List.take_left]
  have hd2 : (W ++ P).drop (W.length + 2 - 2) = P := by
    have he : W.length + 2 - 2 = W.length := by omega
    rw [he, List.drop_left]
  rw [ht, hd2]
  have hie : W.isEmpty = false := by
    cases W with
    | nil => exact absurd rfl hWne
    | cons _ _ => rfl
  rw [hie]
  simp

/-! ## `goParseInt64` and `ValidateAndConvertAmount` evaluation lemmas -/

theorem goParseInt64_digits (L : List Char)
    (hd : ∀ c ∈ L, c ∈ digitChars) (hne : L ≠ []) :
    goParseInt64 L = if natOfDigits L ≤ 2 ^ 63 - 1
      then .ok ((natOfDigits L : Nat) : Int) else .outOfRange := by
  cases L with
  | nil => exact absurd rfl hne
  | cons c rest =>
    have hc := hd c (by simp)
    have hsign : ¬ (c = '+' ∨ c = '-') := by
      rintro (h | h)
      exacts [digit_ne_plus c hc h, digit_ne_minus c hc h]
    have hall : (c :: rest).all goIsDigit = true := by
      rw [List.all_eq_true]
      intro x hx
      exact digit_goIsDigit x (hd x hx)
    simp only [goParseInt64, if_neg hsign, List.isEmpty_cons, hall,
      Bool.false_eq_true, if_false, if_true, if_neg (digit_ne_minus c hc)]

theorem goParseInt64_ok_bounds (L : List Char) (v : Int)
    (h : goParseInt64 L = .ok v) : -(2 ^ 63) ≤ v ∧ v ≤ 2 ^ 63 - 1 := by
  cases L with
  | nil => exact absurd h (by simp [goParseInt64])
  | cons c rest =>
    simp only [goParseInt64] at h
    split_ifs at h with h1 h2 h3 h4 h5
    all_goals simp_all
    all_goals omega

theorem VA_eval (l iv : List Char)
    (htr : goTrimSpace l = l)
    (hie : l.isEmpty = false)
    (hhd : ¬ l.head? = some '-')
    (hlen2 : ¬ 2 < (splitOnChar '.' l).length)
    (hiv : integerValueOf (splitOnChar '.' l) = some iv) :
    ValidateAndConvertAmountL l =
      (if 19 < iv.length then .error .amountOverflow
       else if iv.length = 19 ∧ goStrGT iv maxInt64Chars = true then .error .amountOverflow
       else match goParseInt64 iv with
         | .ok v => .ok v
         | .outOfRange => .error .amountOverflow
         | .malformed => .error .invalidAmount) := by
  simp only [ValidateAndConvertAmountL, htr, hie, Bool.false_eq_true, if_false,
    if_neg hhd, if_neg hlen2, hiv]

theorem VA_ok_bounds (l : List Char) (v : Int)
    (h : ValidateAndConvertAmountL l = .ok v) :
    -(2 ^ 63) ≤ v ∧ v ≤ 2 ^ 63 - 1 := by
  simp only [ValidateAndConvertAmountL] at h
  repeat' split at h
  all_goals first
    | (exfalso; exact Except.noConfusion h)
    | (rename_i heq; cases h; exact goParseInt64_ok_bounds _ _ heq)

theorem padTwo_digits (F : List Char) (hF : ∀ c ∈ F, c ∈ digitChars) :
    ∀ c ∈ padTwo F, c ∈ digitChars := by
  intro c hc
  rcases List.mem_append.mp hc with h | h
  · exact hF c h
  · rcases (List.mem_replicate.mp h) with ⟨-, rfl⟩
    simp [digitChars]

theorem padTwo_length (F : List Char) (h : F.length ≤ 2) : (padTwo F).length = 2 := by
  simp only [padTwo, List.length_append, List.length_replicate]
  omega

theorem VA_dotted (W F : List Char)
    (hW : ∀ c ∈ W, c ∈ digitChars) (hWne : W ≠ [])
    (hF : ∀ c ∈ F, c ∈ digitChars) (hFlen : F.length ≤ 2) :
    ValidateAndConvertAmountL (W ++ '.' :: F) = .error .amountOverflow ∨
    ValidateAndConvertAmountL (W ++ '.' :: F) =
      .ok ((natOfDigits (W ++ padTwo F) : Nat) : Int) := by
  have hns : ∀ c ∈ W ++ '.' :: F, goIsSpace c = false := by
    intro c hc
    rcases List.mem_append.mp hc with h | h
    · exact digit_not_space c (hW c h)
    · rcases List.mem_cons.mp h with rfl | h2
      · rfl
      · exact digit_not_space c (hF c h2)
  have htr := goTrimSpace_eq_self _ hns
  have hie : (W ++ '.' :: F).isEmpty = false := by
    cases W with
    | nil => exact absurd rfl hWne
    | cons w ws => rfl
  have hhd : ¬ (W ++ '.' :: F).head? = some '-' := by
    cases W with
    | nil => exact absurd rfl hWne
    | cons w ws =>
      simp only [List.cons_append, List.head?_cons, Option.some.injEq]
      intro h
      exact digit_ne_minus w (hW w (by simp)) h
  have hsplit : splitOnChar '.' (W ++ '.' :: F) = [W, F] := by
    rw [splitOnChar_append '.' W F (fun c hc => digit_ne_dot c (hW c hc)),
      splitOnChar_no_sep '.' F (fun c hc => digit_ne_dot c (hF c hc))]
  have hlen2 : ¬ 2 < (splitOnChar '.' (W ++ '.' :: F)).length := by
    rw [hsplit]
    simp
  have hiv : integerValueOf (splitOnChar '.' (W ++ '.' :: F)) = some (W ++ padTwo F) := by
    rw [hsplit]
    cases F with
    | nil => simp [integerValueOf, padTwo]
    | cons a F' =>
      cases F' with
      | nil => simp [integerValueOf, padTwo, List.append_assoc]
      | cons b F'' =>
        cases F'' with
        | nil => simp [integerValueOf, padTwo]
        | cons x xs =>
          exfalso
          simp only [List.length_cons] at hFlen
          omega
  rw [VA_eval _ _ htr hie hhd hlen2 hiv]
  by_cases h1 : 19 < (W ++ padTwo F).length
  · left
    rw [if_pos h1]
  · rw [if_neg h1]
    by_cases h2 : (W ++ padTwo F).length = 19 ∧ goStrGT (W ++ padTwo F) maxInt64Chars = true
    · left
      rw [if_pos h2]
    · rw [if_neg h2]
      have hivd : ∀ c ∈ W ++ padTwo F, c ∈ digitChars := by
        intro c hc
        rcases List.mem_append.mp hc with h | h
        · exact hW c h
        · exact padTwo_digits F hF c h
      have hivne : W ++ padTwo F ≠ [] := fun hnil => hWne (List.append_eq_nil.mp hnil).1
      rw [goParseInt64_digits _ hivd hivne]
      by_cases h3 : natOfDigits (W ++ padTwo F) ≤ 2 ^ 63 - 1
      · right
        rw [if_pos h3]
      · left
        rw [if_neg h3]

theorem VA_undotted (W : List Char)
    (hW : ∀ c ∈ W, c ∈ digitChars) (hWne : W ≠ []) :
    ValidateAndConvertAmountL W = .error .amountOverflow ∨
    ValidateAndConvertAmountL W = .ok ((natOfDigits (W ++ ['0', '0']) : Nat) : Int) := by
  have hns : ∀ c ∈ W, goIsSpace c = false := fun c hc => digit_not_space c (hW c hc)
  have htr := goTrimSpace_eq_self _ hns
  have hie : W.isEmpty = false := by
    cases W with
    | nil => exact absurd rfl hWne
    | cons w ws => rfl
  have hhd : ¬ W.head? = some '-' := by
    cases W with
    | nil => exact absurd rfl hWne
    | cons w ws =>
      simp only [List.head?_cons, Option.some.injEq]
      intro h
      exact digit_ne_minus w (hW w (by simp)) h
  have hsplit : splitOnChar '.' W = [W] :=
    splitOnChar_no_sep '.' W (fun c hc => digit_ne_dot c (hW c hc))
  have hlen2 : ¬ 2 < (splitOnChar '.' W).length := by
    rw [hsplit]
    simp
  have hiv : integerValueOf (splitOnChar '.' W) = some (W ++ ['0', '0']) := by
    rw [hsplit]
    rfl
  rw [VA_eval _ _ htr hie hhd hlen2 hiv]
  by_cases h1 : 19 < (W ++ ['0', '0']).length
  · left
    rw [if_pos h1]
  · rw [if_neg h1]
    by_cases h2 : (W ++ ['0', '0']).length = 19 ∧ goStrGT (W ++ ['0', '0']) maxInt64Chars = true
    · left
      rw [if_pos h2]
    · rw [if_neg h2]
      have hivd : ∀ c ∈ W ++ ['0', '0'], c ∈ digitChars := by
        intro c hc
        rcases List.mem_append.mp hc with h | h
        · exact hW c h
        · rcases List.mem_cons.mp h with rfl | h2a
          · simp [digitChars]
          · rcases List.mem_cons.mp h2a with rfl | h3a
            · simp [digitChars]
            · simp at h3a
      have hivne : W ++ ['0', '0'] ≠ [] := fun hnil => hWne (List.append_eq_nil.mp hnil).1
      rw [goParseInt64_digits _ hivd hivne]
      by_cases h3 : natOfDigits (W ++ ['0', '0']) ≤ 2 ^ 63 - 1
      · right
        rw [if_pos h3]
      · left
        rw [if_neg h3]

theorem EnsureTwo_dotted (W F : List Char)
    (hW : ∀ c ∈ W, c ∈ digitChars) (hWne : W ≠ [])
    (hF : ∀ c ∈ F, c ∈ digitChars) (hFlen : F.length ≤ 2) :
    EnsureTwoDecimalPlacesL (W ++ '.' :: F) = .ok (W ++ '.' :: padTwo F) := by
  have hns : ∀ c ∈ W ++ '.' :: F, goIsSpace c = false := by
    intro c hc
    rcases List.mem_append.mp hc with h | h
    · exact digit_not_space c (hW c h)
    · rcases List.mem_cons.mp h with rfl | h2
      · rfl
      · exact digit_not_space c (hF c h2)
  have hie : (goTrimSpace (W ++ '.' :: F)).isEmpty = false := by
    rw [goTrimSpace_eq_self _ hns]
    cases W with
    | nil => exact absurd rfl hWne
    | cons w ws => rfl
  have hsplit : splitOnChar '.' (W ++ '.' :: F) = [W, F] := by
    rw [splitOnChar_append '.' W F (fun c hc => digit_ne_dot c (hW c hc)),
      splitOnChar_no_sep '.' F (fun c hc => digit_ne_dot c (hF c hc))]
  simp only [EnsureTwoDecimalPlacesL, hie, Bool.false_eq_true, if_false, hsplit]
  cases F with
  | nil => simp [padTwo]
  | cons a F' =>
    cases F' with
    | nil => simp [padTwo, List.append_assoc]
    | cons b F'' =>
      cases F'' with
      | nil => simp [padTwo]
      | cons x xs =>
        exfalso
        simp only [List.length_cons] at hFlen
        omega

theorem EnsureTwo_undotted (W : List Char)
    (hW : ∀ c ∈ W, c ∈ digitChars) (hWne : W ≠ []) :
    EnsureTwoDecimalPlacesL W = .ok (W ++ '.' :: ['0', '0']) := by
  have hns : ∀ c ∈ W, goIsSpace c = false := fun c hc => digit_not_space c (hW c hc)
  have hie : (goTrimSpace W).isEmpty = false := by
    rw [goTrimSpace_eq_self _ hns]
    cases W with
    | nil => exact absurd rfl hWne
    | cons w ws => rfl
  have hsplit : splitOnChar '.' W = [W] :=
    splitOnChar_no_sep '.' W (fun c hc => digit_ne_dot c (hW c hc))
  simp only [EnsureTwoDecimalPlacesL, hie, Bool.false_eq_true, if_false, hsplit]

/-! ## C5 — money round-trip -/

/-- C5 counterexample: `".5"` is accepted by the parser (50 cents), its
canonicalisation to two fractional digits is `".50"`, but formatting the
parsed cents yields `"0.50"` — so `format(parse(s)) ≠ canonical(s)` for this
accepted `s`. -/
theorem C5_counterexample :
    ValidateAndConvertAmount ".5" = .ok 50 ∧
    EnsureTwoDecimalPlaces ".5" = .ok ".50" ∧
    AmountInCentsToString 50 = "0.50" ∧
    ("0.50" : String) ≠ ".50" :=
  ⟨rfl, rfl, rfl, by decide⟩

/-- C5 (amended): the round-trip `format(parse(s)) = canonical(s)` holds for
every accepted amount string whose integer part is a canonical decimal
numeral (nonempty, digits only, no leading zero unless exactly `"0"`) and
whose fractional part has at most two digits — both in the dotted form
`W.F` and the undotted form `W` (canonical pads the fractional part to
exactly two digits). It fails in general for other accepted strings (empty
or zero-padded integer parts, surrounding whitespace or a leading sign). -/
theorem C5_round_trip_canonical (W F : List Char) (v : Int)
    (hWc : canonicalNumeral W)
    (hF : ∀ c ∈ F, c ∈ digitChars) (hFlen : F.length ≤ 2) :
    (ValidateAndConvertAmount (String.mk (W ++ '.' :: F)) = .ok v →
      AmountInCentsToString v = String.mk (W ++ '.' :: padTwo F) ∧
      EnsureTwoDecimalPlaces (String.mk (W ++ '.' :: F)) =
        .ok (String.mk (W ++ '.' :: padTwo F))) ∧
    (ValidateAndConvertAmount (String.mk W) = .ok v →
      AmountInCentsToString v = String.mk (W ++ '.' :: ['0', '0']) ∧
      EnsureTwoDecimalPlaces (String.mk W) =
        .ok (String.mk (W ++ '.' :: ['0', '0']))) := by
  obtain ⟨hW, hWne, hWcan⟩ := hWc
  constructor
  · intro h
    have hL : ValidateAndConvertAmountL (W ++ '.' :: F) = .ok v := h
    rcases VA_dotted W F hW hWne hF hFlen with he | hok
    · rw [hL] at he
      exact absurd he (by simp)
    · rw [hL] at hok
      have hv : v = ((natOfDigits (W ++ padTwo F) : Nat) : Int) := Except.ok.inj hok

      constructor
      · show String.mk (AmountInCentsToStringL v) = _
        rw [hv, format_concat W (padTwo F) hW hWne hWcan
          (padTwo_digits F hF) (padTwo_length F hFlen)]
      · show (EnsureTwoDecimalPlacesL (W ++ '.' :: F)).map String.mk = _
        rw [EnsureTwo_dotted W F hW hWne hF hFlen]
        rfl
  · intro h
    have hL : ValidateAndConvertAmountL W = .ok v := h
    rcases VA_undotted W hW hWne with he | hok
    · rw [hL] at he
      exact absurd he (by simp)
    · rw [hL] at hok
      have hv : v = ((natOfDigits (W ++ ['0', '0']) : Nat) : Int) := Except.ok.inj hok
      constructor
      · show String.mk (AmountInCentsToStringL v) = _
        rw [hv, format_concat W ['0', '0'] hW hWne hWcan (by decide) rfl]
      · show (EnsureTwoDecimalPlacesL W).map String.mk = _
        rw [EnsureTwo_undotted W hW hWne]
        rfl

/-- Witness for C5: `"12.3"` parses to 1230 cents and formats back to
`"12.30"`, the canonicalisation of `"12.3"`. -/
theorem C5_witness :
    AmountInCentsToString 1230 = String.mk (['1', '2'] ++ '.' :: padTwo ['3']) ∧
    EnsureTwoDecimalPlaces (String.mk (['1', '2'] ++ '.' :: ['3'])) =
      .ok (String.mk (['1', '2'] ++ '.' :: padTwo ['3'])) :=
  (C5_round_trip_canonical ['1', '2'] ['3'] 1230
    (by refine ⟨by decide, by decide, Or.inr (by decide)⟩) (by decide) (by decide)).1 rfl

/-! ## C8 — overflow detection -/

/-- C8: (1) whenever the trimmed, sign-free input splits into at most two
parts with at most two fractional digits, and the concatenated digit string
(integer part plus fractional part padded to two digits) is longer than 19
characters, or exactly 19 and lexicographically greater than
`"9223372036854775807"`, `ValidateAndConvertAmount` fails with
`AmountOverflow`; (2) consequently every accepted string parses to a cents
value in the signed 64-bit range. -/
theorem C8_overflow_checks :
    (∀ (l iv : List Char),
      goTrimSpace l = l → l.isEmpty = false → ¬ l.head? = some '-' →
      ¬ 2 < (splitOnChar '.' l).length →
      integerValueOf (splitOnChar '.' l) = some iv →
      (19 < iv.length ∨ (iv.length = 19 ∧ goStrGT iv maxInt64Chars = true)) →
      ValidateAndConvertAmountL l = .error .amountOverflow) ∧
    (∀ (s : String) (v : Int), ValidateAndConvertAmount s = .ok v →
      -(2 ^ 63) ≤ v ∧ v ≤ 2 ^ 63 - 1) := by
  constructor
  · intro l iv htr hie hhd hlen2 hiv hover
    rw [VA_eval l iv htr hie hhd hlen2 hiv]
    rcases hover with h1 | h2
    · rw [if_pos h1]
    · rw [if_neg (by omega), if_pos h2]
  · intro s v h
    exact VA_ok_bounds s.toList v h

/-- Witness for C8: a 20-digit amount (22-character concatenation) overflows,
and the accepted `"1.00"` parses to 100, inside the int64 range. -/
theorem C8_witness :
    ValidateAndConvertAmountL "12345678901234567890".toList = .error .amountOverflow ∧
    (-(2 ^ 63) ≤ (100 : Int) ∧ (100 : Int) ≤ 2 ^ 63 - 1) :=
  ⟨C8_overflow_checks.1 "12345678901234567890".toList
      "1234567890123456789000".toList
      (by decide) (by decide) (by decide) (by decide) (by decide)
      (Or.inl (by decide)),
   C8_overflow_checks.2 "1.00" 100 rfl⟩

/-! ## C10 — leading '+' is accepted -/

/-- C10: `"+5"` parses to 500 cents with no error; more generally, for any
otherwise-valid all-digit amount (with at most one dot and at most two
fractional digits) whose concatenated digit string has at most 18
characters — short enough that the sign-lengthened string skips the
length-based overflow check — prefixing `'+'` yields the same parse result,
and both parse to the concatenation's value in cents. -/
theorem C10_plus_sign_accepted :
    ValidateAndConvertAmount "+5" = .ok 500 ∧
    ∀ (l iv : List Char), l ≠ [] →
      (∀ c ∈ l, c ∈ digitChars ∨ c = '.') →
      ¬ 2 < (splitOnChar '.' l).length →
      integerValueOf (splitOnChar '.' l) = some iv →
      iv.length ≤ 18 →
      (∀ c ∈ iv, c ∈ digitChars) → iv ≠ [] →
      ValidateAndConvertAmountL ('+' :: l) = ValidateAndConvertAmountL l ∧
      ValidateAndConvertAmountL l = .ok ((natOfDigits iv : Nat) : Int) := by
  refine ⟨rfl, ?_⟩
  intro l iv hlne hchr hlen2 hiv hlen18 hivd hivne
  have hns : ∀ c ∈ l, goIsSpace c = false := by
    intro c hc
    rcases hchr c hc with h | rfl
    · exact digit_not_space c h
    · rfl
  have htr := goTrimSpace_eq_self _ hns
  have hie : l.isEmpty = false := by
    cases l with
    | nil => exact absurd rfl hlne
    | cons _ _ => rfl
  have hhd : ¬ l.head? = some '-' := by
    cases l with
    | nil => exact absurd rfl hlne
    | cons c t =>
      simp only [List.head?_cons, Option.some.injEq]
      intro h
      rcases hchr c (by simp) with hd | hdot
      · exact digit_ne_minus c hd h
      · rw [h] at hdot
        exact absurd hdot (by decide)
  have hbound : natOfDigits iv ≤ 2 ^ 63 - 1 := by
    have h1 := natOfDigits_lt iv hivd
    have h2 : (10 : Nat) ^ iv.length ≤ 10 ^ 18 :=
      Nat.pow_le_pow_right (by norm_num) hlen18
    have h3 : (10 : Nat) ^ 18 ≤ 2 ^ 63 - 1 := by norm_num
    omega
  have hVAl : ValidateAndConvertAmountL l = .ok ((natOfDigits iv : Nat) : Int) := by
    rw [VA_eval l iv htr hie hhd hlen2 hiv, if_neg (by omega),
      if_neg (by rintro ⟨hc1, -⟩; omega),
      goParseInt64_digits iv hivd hivne, if_pos hbound]
  have hns2 : ∀ c ∈ ('+' :: l), goIsSpace c = false := by
    intro c hc
    rcases List.mem_cons.mp hc with rfl | h
    · rfl
    · exact hns c h
  have htr2 := goTrimSpace_eq_self _ hns2
  have hie2 : ('+' :: l).isEmpty = false := rfl
  have hhd2 : ¬ ('+' :: l).head? = some '-' := by simp
  obtain ⟨w, t, hps⟩ : ∃ w t, splitOnChar '.' l = w :: t := by
    cases hps : splitOnChar '.' l with
    | nil => exact absurd hps (splitOnChar_ne_nil '.' l)
    | cons w t => exact ⟨w, t, rfl⟩
  have hsp2 : splitOnChar '.' ('+' :: l) = ('+' :: w) :: t := by
    simp only [splitOnChar, hps]
    rw [if_neg (by decide : ¬ ('+' : Char) = '.')]
  have hlen2p : ¬ 2 < (splitOnChar '.' ('+' :: l)).length := by
    rw [hsp2]
    rw [hps] at hlen2
    simpa using hlen2
  have hiv2 : integerValueOf (splitOnChar '.' ('+' :: l)) = some ('+' :: iv) := by
    rw [hsp2]
    rw [hps] at hiv
    cases t with
    | nil =>
      simp only [integerValueOf, Option.some.injEq] at hiv ⊢
      rw [List.cons_append, hiv]
    | cons f t' =>
      cases t' with
      | nil =>
        cases f with
        | nil =>
          simp only [integerValueOf, List.length_nil, Option.some.injEq,
            List.cons_append] at hiv ⊢
          rw [hiv]
        | cons a f2 =>
          cases f2 with
          | nil =>
            simp only [integerValueOf, List.length_cons, List.length_nil,
              Nat.reduceAdd, Option.some.injEq, List.cons_append] at hiv ⊢
            rw [hiv]
          | cons b f3 =>
            cases f3 with
            | nil =>
              simp only [integerValueOf, List.length_cons, List.length_nil,
                Nat.reduceAdd, Option.some.injEq, List.cons_append] at hiv ⊢
              rw [hiv]
            | cons x xs =>
              simp only [integerValueOf, List.length_cons] at hiv
              exact absurd hiv (by simp)
      | cons _ _ =>
        simp only [integerValueOf] at hiv
        exact absurd hiv (by simp)
  have hgt : goStrGT ('+' :: iv) maxInt64Chars = false := rfl
  have hVAp : ValidateAndConvertAmountL ('+' :: l) =
      .ok ((natOfDigits iv : Nat) : Int) := by
    rw [VA_eval _ _ htr2 hie2 hhd2 hlen2p hiv2,
      if_neg (by simp only [List.length_cons]; omega),
      if_neg (by rintro ⟨-, hcon⟩; rw [hgt] at hcon; exact Bool.noConfusion hcon)]
    have hgp : goParseInt64 ('+' :: iv) = .ok ((natOfDigits iv : Nat) : Int) := by
      have hie3 : iv.isEmpty = false := by
        cases iv with
        | nil => exact absurd rfl hivne
        | cons _ _ => rfl
      have hall : iv.all goIsDigit = true := by
        rw [List.all_eq_true]
        intro x hx
        exact digit_goIsDigit x (hivd x hx)
      simp only [goParseInt64, eq_self_iff_true, true_or, if_true, hie3,
        Bool.false_eq_true, if_false, hall,
        if_neg (by decide : ¬ ('+' : Char) = '-'), if_pos hbound]
    rw [hgp]
  exact ⟨hVAp.trans hVAl.symm, hVAl⟩

/-- Witness for C10: `"5"` and `"+5"` both parse to 500 cents. -/
theorem C10_witness :
    ValidateAndConvertAmountL ('+' :: ['5']) = ValidateAndConvertAmountL ['5'] ∧
    ValidateAndConvertAmountL ['5'] = .ok ((natOfDigits ['5', '0', '0'] : Nat) : Int) :=
  C10_plus_sign_accepted.2 ['5'] ['5', '0', '0'] (by decide) (by decide) (by decide)
    (by decide) (by decide) (by decide) (by decide)

end BalanceProcessor
